import Mathlib

/-!
Verification of the picking-assignment and merge-key logic of the
stock_picking_group_by_partner_by_carrier module
(models/stock_move.py).

The embedding is shallow: Odoo recordsets reached through Many2one
fields are modelled as Option-valued references (an empty recordset
reads as a false/none value, exactly as attribute access on an empty
recordset yields False in Odoo), search domains are lists of
(field, operator, value) clauses, and the context is a record of the
two boolean flags the module consults.  Collaborator results that the
module only passes through (the base search domain, the base merge
field list, the base assignment key) are universally quantified
parameters.
-/

/-- A value occurring in a search-domain clause or in a write dict:
either the Odoo `False` (empty Many2one / flag off), a database id,
or a selection string such as a move type. -/
inductive DVal where
  | fls : DVal
  | nat : Nat → DVal
  | str : String → DVal
deriving DecidableEq, Repr

/-- Convert the id of a possibly-empty Many2one (`record.id`, which is
`False` on an empty recordset) to a domain value. -/
def dv : Option Nat → DVal
  | some n => DVal.nat n
  | none => DVal.fls

/-- One clause of an Odoo search domain: `(field, operator, value)`. -/
structure Clause where
  field : String
  op : String
  value : DVal
deriving DecidableEq, Repr

/-- The two context flags read by the module. -/
structure Ctx where
  picking_no_overwrite_partner_origin : Bool
  picking_no_copy_if_can_group : Bool
deriving DecidableEq, Repr

/-- res.partner: carries the per-partner grouping opt-out flag. -/
structure ResPartner where
  id : Nat
  disable_picking_grouping : Bool
deriving DecidableEq, Repr

/-- delivery.carrier. -/
structure DeliveryCarrier where
  id : Nat
deriving DecidableEq, Repr

/-- sale.order: picking policy ("direct" or "one") and shipping partner. -/
structure SaleOrder where
  picking_policy : String
  partner_shipping_id : Option ResPartner
deriving DecidableEq, Repr

/-- sale.order.line: back-reference to its order. -/
structure SaleLine where
  order_id : Option SaleOrder
deriving DecidableEq, Repr

/-- procurement.group. -/
structure ProcGroup where
  id : Nat
  partner_id : Option ResPartner
  carrier_id : Option DeliveryCarrier
  move_type : String
  sale_id : Option SaleOrder
deriving DecidableEq, Repr

/-- stock.picking.type: grouping flag and operation code. -/
structure PickingType where
  group_pickings : Bool
  code : String
deriving DecidableEq, Repr

/-- A stock.move, with the fields the module reads.  `picking_id` is
the id of the currently assigned picking. -/
structure Move where
  picking_type_id : PickingType
  partner_id : Option ResPartner
  group_id : Option ProcGroup
  picking_id : Option Nat
  sale_line_id : Option SaleLine
deriving DecidableEq, Repr

/-- `self.group_id.sale_id.picking_policy` (None if any link is empty;
attribute access on an empty recordset yields False in Odoo). -/
def Move.groupPolicy (m : Move) : Option String :=
  (m.group_id.bind (fun g => g.sale_id)).map (fun s => s.picking_policy)

/-- `self.group_id.partner_id.id`. -/
def Move.groupPartnerId (m : Move) : Option Nat :=
  (m.group_id.bind (fun g => g.partner_id)).map (fun p => p.id)

/-- `self.group_id.carrier_id.id`. -/
def Move.groupCarrierId (m : Move) : Option Nat :=
  (m.group_id.bind (fun g => g.carrier_id)).map (fun c => c.id)

/-- `self.group_id.move_type` (False on an empty group). -/
def Move.groupMoveType (m : Move) : DVal :=
  match m.group_id with
  | some g => DVal.str g.move_type
  | none => DVal.fls

/-- `self.partner_id.disable_picking_grouping` (False on empty partner). -/
def Move.partnerDisableGrouping (m : Move) : Bool :=
  match m.partner_id with
  | some p => p.disable_picking_grouping
  | none => false

/-- `self.sale_line_id.order_id`. -/
def Move.saleOrder (m : Move) : Option SaleOrder :=
  m.sale_line_id.bind (fun l => l.order_id)

/-! ## The `vals` dictionary of `write`

A Python dict with string keys, modelled as an insertion-ordered
association list; assignment replaces in place or appends a new key at
the end, as CPython dicts do. -/

/-- The `vals` argument of `write`. -/
abbrev Vals : Type := List (String × DVal)

/-- `k in vals`. -/
def hasKey (vs : Vals) (k : String) : Bool :=
  vs.any (fun p => p.1 == k)

/-- `vals[k]`, as an option. -/
def lookupKey (vs : Vals) (k : String) : Option DVal :=
  (vs.find? (fun p => p.1 == k)).map (fun p => p.2)

/-- `vals[k] = v`: replace the binding in place, or append it. -/
def setKey : Vals → String → DVal → Vals
  | [], k, v => [(k, v)]
  | p :: rest, k, v =>
    if p.1 = k then (k, v) :: rest else p :: setKey rest k v

/-! ## StockMove.write

`self` may be a multi-record set; `groupIds` is the list of distinct
procurement-group ids of the moves in `self` (`self.group_id`), so
`len(self.group_id)` is `groupIds.length` and `self.group_id.id` on a
singleton is its sole element. -/

/-- State of the `vals` dict after `StockMove.write` has run its
interception (the dict is then handed to the base `write`).  Mirrors
lines 28-35 of stock_move.py. -/
def write_vals (ctx : Ctx) (groupIds : List Nat) (vals : Vals) : Vals :=
  if ctx.picking_no_overwrite_partner_origin
      && hasKey vals "picking_id"
      && !(hasKey vals "group_id")
      && (groupIds.length == 1) then
    setKey vals "group_id" (dv groupIds.head?)
  else
    vals

/-- The stored fields of one move that `write` can touch here. -/
structure MoveState where
  picking_id : Option Nat
  group_id : Option Nat
deriving DecidableEq, Repr

/-- Effect of one key of a write dict on a Many2one column: absent key
leaves the column, a numeric value sets it, False clears it. -/
def applyVal (cur : Option Nat) (v : Option DVal) : Option Nat :=
  match v with
  | Option.none => cur
  | some (DVal.nat n) => some n
  | some _ => Option.none

/-- The base (super) `write` of the ORM on one move: each key present
in `vals` overwrites the corresponding column. -/
def super_write (st : MoveState) (vals : Vals) : MoveState :=
  { picking_id := applyVal st.picking_id (lookupKey vals "picking_id")
    group_id := applyVal st.group_id (lookupKey vals "group_id") }

/-- `self.group_id` of a single move, as a recordset id list. -/
def MoveState.groupIds (st : MoveState) : List Nat :=
  match st.group_id with
  | some g => [g]
  | none => []

/-- `StockMove.write` on a single move: run the interception, then the
base write; returns the final move state and the final state of the
caller's `vals` dict (mutated in place by the interception). -/
def write (ctx : Ctx) (st : MoveState) (vals : Vals) : MoveState × Vals :=
  let vals2 := write_vals ctx st.groupIds vals
  (super_write st vals2, vals2)

/-! ## Merge distinct fields -/

/-- `_prepare_merge_moves_distinct_fields`: the base list with
`original_group_id` appended (line 43 of stock_move.py). -/
def _prepare_merge_moves_distinct_fields (base : List String) : List String :=
  base ++ ["original_group_id"]

/-- Merge-equivalence as consumed by the base merge logic: two moves
merge only if they agree on every distinct field.  A move's field
content is abstracted as a valuation from field names to values. -/
def mergeEquiv (fields : List String) (v1 v2 : String → DVal) : Bool :=
  fields.all (fun f => v1 f == v2 f)

/-! ## Search domain for picking assignation -/

/-- `_domain_search_picking_handle_move_type` (lines 111-118). -/
def _domain_search_picking_handle_move_type (m : Move) : List Clause :=
  [⟨"move_type", "=", m.groupMoveType⟩]

/-- `_assign_picking_group_domain` (lines 91-109). -/
def _assign_picking_group_domain (ctx : Ctx) (m : Move) : List Clause :=
  let domain : List Clause := [⟨"partner_id", "=", dv m.groupPartnerId⟩]
  let domain := domain ++ _domain_search_picking_handle_move_type m
  let domain := domain ++
    (if m.picking_type_id.code = "outgoing" then
      [⟨"carrier_id", "=", dv m.groupCarrierId⟩]
    else
      [⟨"carrier_id", "=", DVal.fls⟩])
  let domain :=
    if ctx.picking_no_copy_if_can_group then
      domain ++ [⟨"id", "!=", dv m.picking_id⟩]
    else
      domain
  domain

/-- `_search_picking_for_assignation_domain` (lines 73-87); the base
domain returned by `super()` is a parameter. -/
def _search_picking_for_assignation_domain (ctx : Ctx) (m : Move)
    (base : List Clause) : List Clause :=
  if !(m.picking_type_id.group_pickings)
      || m.partnerDisableGrouping
      || (m.groupPolicy == some "one") then
    base
  else
    (base.filter (fun x => x.field ≠ "group_id"))
      ++ _assign_picking_group_domain ctx m

/-! ## Assignment key -/

/-- The namedtuple `PickingPolicy(id=...)` of line 129: a single-field
record exposing the wrapped policy value as an `id` attribute. -/
structure PickingPolicy where
  id : Option String
deriving DecidableEq, Repr

/-- One component of the tuple returned by `_key_assign_picking`: the
shipping-partner record, the wrapped policy, or an opaque component
contributed by the base implementation. -/
inductive KeyElem where
  | partnerRec : Option ResPartner → KeyElem
  | policy : PickingPolicy → KeyElem
  | baseElem : Nat → KeyElem
deriving DecidableEq, Repr

/-- `_key_assign_picking` (lines 120-124): prepend the shipping partner
and the wrapped picking policy to the base key. -/
def _key_assign_picking (m : Move) (base : List KeyElem) : List KeyElem :=
  KeyElem.partnerRec (m.saleOrder.bind (fun s => s.partner_shipping_id))
    :: KeyElem.policy ⟨m.saleOrder.map (fun s => s.picking_policy)⟩
    :: base

/-! ## Batch grouping in `_assign_picking_post_process`

Lines 51-54: `groupby(sorted(self, key=lambda m: m.picking_id.id),
key=lambda m: m.picking_id)`.  A move in the batch is abstracted to its
id and the id of its assigned picking; Python's `sorted` is a stable
sort, modelled with `List.mergeSort`, and `itertools.groupby` groups
maximal runs of consecutive equal keys. -/

/-- A move inside one assignment batch: its own id and the id of the
shipment document (picking) it was assigned to. -/
structure BMove where
  id : Nat
  picking_id : Nat
deriving DecidableEq, Repr

/-- The comparison `lambda m: m.picking_id.id` used by `sorted`. -/
def pickLe (a b : BMove) : Bool :=
  a.picking_id ≤ b.picking_id

/-- `sorted(self, key=lambda m: m.picking_id.id)`. -/
def movesSorted (ms : List BMove) : List BMove :=
  ms.mergeSort pickLe

/-- `itertools.groupby` with key `m.picking_id`: maximal runs of
consecutive moves sharing a picking, each tagged with that picking. -/
def groupRuns : List BMove → List (Nat × List BMove)
  | [] => []
  | m :: ms =>
    match groupRuns ms with
    | [] => [(m.picking_id, [m])]
    | (k, g) :: rest =>
      if m.picking_id = k then (k, m :: g) :: rest
      else (m.picking_id, [m]) :: (k, g) :: rest

/-- `moves_by_picking` of `_assign_picking_post_process`: sort the
batch by picking id, then group consecutive equal pickings. -/
def moves_by_picking (ms : List BMove) : List (Nat × List BMove) :=
  groupRuns (movesSorted ms)

/-! # Helper lemmas -/

theorem lookupKey_setKey (vs : Vals) (k : String) (v : DVal) :
    lookupKey (setKey vs k v) k = some v := by
  induction vs with
  | nil => simp [setKey, lookupKey]
  | cons p rest ih =>
    by_cases h : p.1 = k
    · simp [setKey, h, lookupKey]
    · simpa [setKey, h, lookupKey, List.find?_cons] using ih

theorem setKey_of_not_hasKey (vs : Vals) (k : String) (v : DVal)
    (h : hasKey vs k = false) : setKey vs k v = vs ++ [(k, v)] := by
  induction vs with
  | nil => simp [setKey]
  | cons p rest ih =>
    simp only [hasKey, List.any_cons, Bool.or_eq_false_iff] at h
    have h1 : ¬(p.1 = k) := by
      intro hk
      simp [hk] at h
    simp [setKey, h1, ih (by simpa [hasKey] using h.2)]

theorem hasKey_setKey (vs : Vals) (k : String) (v : DVal) :
    hasKey (setKey vs k v) k = true := by
  induction vs with
  | nil => simp [setKey, hasKey]
  | cons p rest ih =>
    by_cases h : p.1 = k
    · simp [setKey, h, hasKey]
    · simp [setKey, h, hasKey] at ih ⊢
      exact ih

/-! # Claims -/

/-- C1: under the no-overwrite flag, a write that sets `picking_id`
but not `group_id` on a move belonging to exactly one procurement
group leaves the move's `group_id` at its pre-write value, because the
interception forces `vals["group_id"]` to the current group's id
before delegating to the base write. -/
theorem write_preserves_group_id (ctx : Ctx) (st : MoveState) (vals : Vals) (g : Nat)
    (hflag : ctx.picking_no_overwrite_partner_origin = true)
    (hpick : hasKey vals "picking_id" = true)
    (hgrp : hasKey vals "group_id" = false)
    (hg : st.group_id = some g) :
    (write ctx st vals).1.group_id = some g ∧
    lookupKey (write ctx st vals).2 "group_id" = some (DVal.nat g) := by
  have hids : st.groupIds = [g] := by simp [MoveState.groupIds, hg]
  have hcond : write_vals ctx st.groupIds vals
      = setKey vals "group_id" (DVal.nat g) := by
    simp [write_vals, hflag, hpick, hgrp, hids, dv]
  constructor
  · simp [write, super_write, hcond, lookupKey_setKey, applyVal, hg]
  · simp [write, hcond, lookupKey_setKey]

/-- Witness for C1 at a concrete move and vals dict. -/
theorem write_preserves_group_id_witness :
    (write ⟨true, false⟩ ⟨some 5, some 7⟩ [("picking_id", DVal.nat 9)]).1.group_id
        = some 7 ∧
    lookupKey (write ⟨true, false⟩ ⟨some 5, some 7⟩
        [("picking_id", DVal.nat 9)]).2 "group_id" = some (DVal.nat 7) :=
  write_preserves_group_id ⟨true, false⟩ ⟨some 5, some 7⟩
    [("picking_id", DVal.nat 9)] 7 rfl (by decide) (by decide) rfl

/-- C6: when any part of the trigger condition fails (flag absent, no
`picking_id` in vals, `group_id` explicitly in vals, or zero/multiple
groups), the interception passes `vals` to the base write unmodified;
being a total function, it raises nothing. -/
theorem write_passthrough_no_trigger (ctx : Ctx) (groupIds : List Nat) (vals : Vals)
    (h : ctx.picking_no_overwrite_partner_origin = false
      ∨ hasKey vals "picking_id" = false
      ∨ hasKey vals "group_id" = true
      ∨ groupIds.length ≠ 1) :
    write_vals ctx groupIds vals = vals := by
  rcases h with h | h | h | h <;> simp [write_vals, h]

/-- Witness for C6: flag off, vals passes through. -/
theorem write_passthrough_no_trigger_witness :
    write_vals ⟨false, false⟩ [3] [("picking_id", DVal.nat 2)]
      = [("picking_id", DVal.nat 2)] :=
  write_passthrough_no_trigger ⟨false, false⟩ [3]
    [("picking_id", DVal.nat 2)] (Or.inl rfl)

/-- C9: the correction mutates the caller's `vals` dict in place: when
the trigger holds the dict afterwards is the caller's dict with a new
`group_id` binding appended at the end (the key was not passed in);
when the trigger fails the dict is left unmodified. -/
theorem write_mutates_caller_vals (ctx : Ctx) (groupIds : List Nat) (vals : Vals) :
    (ctx.picking_no_overwrite_partner_origin = true →
      hasKey vals "picking_id" = true →
      hasKey vals "group_id" = false →
      groupIds.length = 1 →
      write_vals ctx groupIds vals = vals ++ [("group_id", dv groupIds.head?)] ∧
      hasKey (write_vals ctx groupIds vals) "group_id" = true) ∧
    (ctx.picking_no_overwrite_partner_origin = false
      ∨ hasKey vals "picking_id" = false
      ∨ hasKey vals "group_id" = true
      ∨ groupIds.length ≠ 1 →
      write_vals ctx groupIds vals = vals) := by
  constructor
  · intro hflag hpick hgrp hlen
    have hcond : write_vals ctx groupIds vals
        = setKey vals "group_id" (dv groupIds.head?) := by
      simp [write_vals, hflag, hpick, hgrp, hlen]
    rw [hcond, setKey_of_not_hasKey vals _ _ hgrp]
    refine ⟨rfl, ?_⟩
    rw [← setKey_of_not_hasKey vals _ _ hgrp]
    exact hasKey_setKey vals _ _
  · intro h
    exact write_passthrough_no_trigger ctx groupIds vals h

/-- Witness for C9: the caller's dict gains a `group_id` binding. -/
theorem write_mutates_caller_vals_witness :
    write_vals ⟨true, false⟩ [4] [("picking_id", DVal.nat 2)]
        = [("picking_id", DVal.nat 2), ("group_id", DVal.nat 4)] ∧
    hasKey (write_vals ⟨true, false⟩ [4] [("picking_id", DVal.nat 2)])
        "group_id" = true :=
  (write_mutates_caller_vals ⟨true, false⟩ [4]
    [("picking_id", DVal.nat 2)]).1 rfl (by decide) (by decide) rfl

/-- C2: for a move whose picking type disables grouping, or whose
partner disables grouping, or whose policy is "ship complete" (one),
the assignation search domain is exactly the base domain. -/
theorem search_domain_ineligible_passthrough (ctx : Ctx) (m : Move) (base : List Clause)
    (h : m.picking_type_id.group_pickings = false
      ∨ m.partnerDisableGrouping = true
      ∨ m.groupPolicy = some "one") :
    _search_picking_for_assignation_domain ctx m base = base := by
  rcases h with h | h | h <;> simp [_search_picking_for_assignation_domain, h]

/-- Witness for C2: grouping disabled on the picking type. -/
theorem search_domain_ineligible_passthrough_witness :
    _search_picking_for_assignation_domain ⟨false, false⟩
        ⟨⟨false, "outgoing"⟩, Option.none, Option.none, Option.none, Option.none⟩
        [⟨"group_id", "=", DVal.nat 1⟩]
      = [⟨"group_id", "=", DVal.nat 1⟩] :=
  search_domain_ineligible_passthrough ⟨false, false⟩
    ⟨⟨false, "outgoing"⟩, Option.none, Option.none, Option.none, Option.none⟩
    [⟨"group_id", "=", DVal.nat 1⟩] (Or.inl rfl)

/-- C10: the policy test reads `group_id.sale_id.picking_policy`, so a
move whose group has no sale order is never disqualified by policy:
with the two other eligibility conditions met, the expansion applies. -/
theorem search_domain_group_without_sale (ctx : Ctx) (m : Move) (base : List Clause)
    (h1 : m.picking_type_id.group_pickings = true)
    (h2 : m.partnerDisableGrouping = false)
    (h3 : m.group_id.bind (fun g => g.sale_id) = Option.none) :
    _search_picking_for_assignation_domain ctx m base =
      (base.filter (fun x => x.field ≠ "group_id"))
        ++ _assign_picking_group_domain ctx m := by
  have hp : m.groupPolicy = Option.none := by
    simp [Move.groupPolicy, h3]
  simp [_search_picking_for_assignation_domain, h1, h2, hp]

/-- Witness for C10 at a move whose group has no sale order. -/
theorem search_domain_group_without_sale_witness :
    _search_picking_for_assignation_domain ⟨false, false⟩
        ⟨⟨true, "outgoing"⟩, Option.none,
          some ⟨1, some ⟨2, false⟩, Option.none, "direct", Option.none⟩,
          Option.none, Option.none⟩
        [⟨"group_id", "=", DVal.nat 1⟩, ⟨"state", "=", DVal.str "draft"⟩]
      = (([⟨"group_id", "=", DVal.nat 1⟩, ⟨"state", "=", DVal.str "draft"⟩]
            : List Clause).filter (fun x => x.field ≠ "group_id"))
        ++ _assign_picking_group_domain ⟨false, false⟩
          ⟨⟨true, "outgoing"⟩, Option.none,
            some ⟨1, some ⟨2, false⟩, Option.none, "direct", Option.none⟩,
            Option.none, Option.none⟩ :=
  search_domain_group_without_sale ⟨false, false⟩
    ⟨⟨true, "outgoing"⟩, Option.none,
      some ⟨1, some ⟨2, false⟩, Option.none, "direct", Option.none⟩,
      Option.none, Option.none⟩
    [⟨"group_id", "=", DVal.nat 1⟩, ⟨"state", "=", DVal.str "draft"⟩]
    rfl rfl rfl

/-- C4: the merge distinct-field list is the base list with
`original_group_id` appended, so two moves whose `original_group_id`
differ are never merge-equivalent, whatever the other fields hold. -/
theorem merge_distinct_includes_original_group (base : List String)
    (v1 v2 : String → DVal)
    (h : v1 "original_group_id" ≠ v2 "original_group_id") :
    _prepare_merge_moves_distinct_fields base = base ++ ["original_group_id"] ∧
    mergeEquiv (_prepare_merge_moves_distinct_fields base) v1 v2 = false := by
  refine ⟨rfl, ?_⟩
  simp [mergeEquiv, _prepare_merge_moves_distinct_fields]
  intro hall
  exact fun hc => absurd hc h

/-- Witness for C4: identical values everywhere except the original
group make the moves non-merge-equivalent. -/
theorem merge_distinct_includes_original_group_witness :
    _prepare_merge_moves_distinct_fields ["product_id"]
        = ["product_id"] ++ ["original_group_id"] ∧
    mergeEquiv (_prepare_merge_moves_distinct_fields ["product_id"])
        (fun _ => DVal.nat 1)
        (fun f => if f = "original_group_id" then DVal.nat 2 else DVal.nat 1)
      = false :=
  merge_distinct_includes_original_group ["product_id"]
    (fun _ => DVal.nat 1)
    (fun f => if f = "original_group_id" then DVal.nat 2 else DVal.nat 1)
    (by decide)

/-- C7: the assignment key is the pair (sale order's shipping partner,
picking policy wrapped in a one-field record exposing `id`) prepended
to the base key. -/
theorem key_assign_picking_composition (m : Move) (base : List KeyElem) :
    _key_assign_picking m base =
      [KeyElem.partnerRec (m.saleOrder.bind (fun s => s.partner_shipping_id)),
       KeyElem.policy ⟨m.saleOrder.map (fun s => s.picking_policy)⟩] ++ base ∧
    (_key_assign_picking m base).drop 2 = base ∧
    (∃ p : PickingPolicy,
      (_key_assign_picking m base)[1]? = some (KeyElem.policy p) ∧
      p.id = m.saleOrder.map (fun s => s.picking_policy)) := by
  refine ⟨rfl, rfl, ⟨m.saleOrder.map (fun s => s.picking_policy)⟩, ?_, rfl⟩
  simp [_key_assign_picking]

/-- C3: for an eligible move (grouping on, partner does not opt out,
policy not "ship complete"), the returned domain has no `group_id`
clause, and exactly one `carrier_id` clause: equality with the group's
carrier for outgoing moves, equality with the empty value otherwise.
The base builder never emits carrier clauses, which the hypothesis on
`base` records. -/
theorem search_domain_eligible_carrier_clause (ctx : Ctx) (m : Move) (base : List Clause)
    (h1 : m.picking_type_id.group_pickings = true)
    (h2 : m.partnerDisableGrouping = false)
    (h3 : ¬ m.groupPolicy = some "one")
    (hbase : ∀ c ∈ base, c.field ≠ "carrier_id") :
    ((_search_picking_for_assignation_domain ctx m base).filter
        (fun c => c.field == "group_id") = []) ∧
    ((_search_picking_for_assignation_domain ctx m base).filter
        (fun c => c.field == "carrier_id") =
      [if m.picking_type_id.code = "outgoing"
        then ⟨"carrier_id", "=", dv m.groupCarrierId⟩
        else ⟨"carrier_id", "=", DVal.fls⟩]) := by
  have h3b : (m.groupPolicy == some "one") = false := beq_eq_false_iff_ne.mpr h3
  have hs : _search_picking_for_assignation_domain ctx m base
      = (base.filter (fun x => x.field ≠ "group_id"))
        ++ _assign_picking_group_domain ctx m := by
    simp [_search_picking_for_assignation_domain, h1, h2, h3b]
  constructor
  · rw [hs, List.filter_append]
    have hb : (base.filter (fun x => x.field ≠ "group_id")).filter
        (fun c => c.field == "group_id") = [] := by
      rw [List.filter_filter, List.filter_eq_nil_iff]
      intro a _
      simp
    rw [hb]
    by_cases hc : m.picking_type_id.code = "outgoing" <;>
      by_cases hf : ctx.picking_no_copy_if_can_group <;>
        simp [_assign_picking_group_domain,
          _domain_search_picking_handle_move_type, hc, hf]
  · rw [hs, List.filter_append]
    have hb : (base.filter (fun x => x.field ≠ "group_id")).filter
        (fun c => c.field == "carrier_id") = [] := by
      rw [List.filter_filter, List.filter_eq_nil_iff]
      intro a ha
      simp
      intro hfa
      exact absurd hfa (hbase a ha)
    rw [hb]
    by_cases hc : m.picking_type_id.code = "outgoing" <;>
      by_cases hf : ctx.picking_no_copy_if_can_group <;>
        simp [_assign_picking_group_domain,
          _domain_search_picking_handle_move_type, hc, hf]

/-- Witness for C3 at a concrete eligible outgoing move. -/
theorem search_domain_eligible_carrier_clause_witness :
    ((_search_picking_for_assignation_domain ⟨false, false⟩
        ⟨⟨true, "outgoing"⟩, Option.none,
          some ⟨1, some ⟨2, false⟩, some ⟨3⟩, "direct",
            some ⟨"direct", some ⟨2, false⟩⟩⟩,
          Option.none, Option.none⟩
        [⟨"group_id", "=", DVal.nat 1⟩]).filter
          (fun c => c.field == "group_id") = []) ∧
    ((_search_picking_for_assignation_domain ⟨false, false⟩
        ⟨⟨true, "outgoing"⟩, Option.none,
          some ⟨1, some ⟨2, false⟩, some ⟨3⟩, "direct",
            some ⟨"direct", some ⟨2, false⟩⟩⟩,
          Option.none, Option.none⟩
        [⟨"group_id", "=", DVal.nat 1⟩]).filter
          (fun c => c.field == "carrier_id") =
      [if ("outgoing" : String) = "outgoing"
        then ⟨"carrier_id", "=",
          dv (Move.groupCarrierId ⟨⟨true, "outgoing"⟩, Option.none,
            some ⟨1, some ⟨2, false⟩, some ⟨3⟩, "direct",
              some ⟨"direct", some ⟨2, false⟩⟩⟩,
            Option.none, Option.none⟩)⟩
        else ⟨"carrier_id", "=", DVal.fls⟩]) :=
  search_domain_eligible_carrier_clause ⟨false, false⟩
    ⟨⟨true, "outgoing"⟩, Option.none,
      some ⟨1, some ⟨2, false⟩, some ⟨3⟩, "direct",
        some ⟨"direct", some ⟨2, false⟩⟩⟩,
      Option.none, Option.none⟩
    [⟨"group_id", "=", DVal.nat 1⟩]
    rfl rfl (by decide) (by decide)

/-- C8: for an eligible move, the backorder flag adds a clause
excluding the move's own picking (`id != picking_id`); without the
flag no clause on `id` appears (the base builder emits none, which
the hypothesis on `base` records). -/
theorem search_domain_backorder_exclusion (ctx : Ctx) (m : Move) (base : List Clause)
    (h1 : m.picking_type_id.group_pickings = true)
    (h2 : m.partnerDisableGrouping = false)
    (h3 : ¬ m.groupPolicy = some "one")
    (hbase : ∀ c ∈ base, c.field ≠ "id") :
    (ctx.picking_no_copy_if_can_group = true →
      (⟨"id", "!=", dv m.picking_id⟩ : Clause)
        ∈ _search_picking_for_assignation_domain ctx m base) ∧
    (ctx.picking_no_copy_if_can_group = false →
      ∀ c ∈ _search_picking_for_assignation_domain ctx m base,
        c.field ≠ "id") := by
  have h3b : (m.groupPolicy == some "one") = false := beq_eq_false_iff_ne.mpr h3
  have hs : _search_picking_for_assignation_domain ctx m base
      = (base.filter (fun x => x.field ≠ "group_id"))
        ++ _assign_picking_group_domain ctx m := by
    simp [_search_picking_for_assignation_domain, h1, h2, h3b]
  constructor
  · intro hf
    rw [hs]
    refine List.mem_append_right _ ?_
    by_cases hc : m.picking_type_id.code = "outgoing" <;>
      simp [_assign_picking_group_domain,
        _domain_search_picking_handle_move_type, hc, hf]
  · intro hf c hcmem
    rw [hs] at hcmem
    rcases List.mem_append.mp hcmem with hin | hin
    · exact hbase c (List.mem_of_mem_filter hin)
    · by_cases hc : m.picking_type_id.code = "outgoing" <;>
        simp [_assign_picking_group_domain,
          _domain_search_picking_handle_move_type, hc, hf] at hin <;>
        rcases hin with h | h | h <;> simp [h]

/-- Witness for C8: with the backorder flag, the exclusion clause is
present in the domain of a concrete eligible move. -/
theorem search_domain_backorder_exclusion_witness :
    (⟨"id", "!=", dv (some 9)⟩ : Clause)
      ∈ _search_picking_for_assignation_domain ⟨false, true⟩
        ⟨⟨true, "outgoing"⟩, Option.none,
          some ⟨1, some ⟨2, false⟩, some ⟨3⟩, "direct", Option.none⟩,
          some 9, Option.none⟩
        [⟨"group_id", "=", DVal.nat 1⟩] :=
  (search_domain_backorder_exclusion ⟨false, true⟩
    ⟨⟨true, "outgoing"⟩, Option.none,
      some ⟨1, some ⟨2, false⟩, some ⟨3⟩, "direct", Option.none⟩,
      some 9, Option.none⟩
    [⟨"group_id", "=", DVal.nat 1⟩]
    rfl rfl (by decide) (by decide)).1 rfl

/-! # Lemmas on batch grouping -/

theorem groupRuns_flatten (l : List BMove) :
    ((groupRuns l).map Prod.snd).flatten = l := by
  induction l with
  | nil => simp [groupRuns]
  | cons m ms ih =>
    cases hgr : groupRuns ms with
    | nil =>
      rw [hgr] at ih
      simp at ih
      simp [groupRuns, hgr, ← ih]
    | cons p rest =>
      rw [hgr] at ih
      rcases p with ⟨k, g⟩
      by_cases hmk : m.picking_id = k
      · simp [groupRuns, hgr, hmk]
        simpa using ih
      · simp [groupRuns, hgr, hmk]
        simpa using ih

theorem groupRuns_key (l : List BMove) :
    ∀ p ∈ groupRuns l, ∀ x ∈ p.2, x.picking_id = p.1 := by
  induction l with
  | nil => simp [groupRuns]
  | cons m ms ih =>
    cases hgr : groupRuns ms with
    | nil =>
      intro p hp x hx
      simp [groupRuns, hgr] at hp
      subst hp
      simp at hx
      simp [hx]
    | cons q rest =>
      rw [hgr] at ih
      rcases q with ⟨k, g⟩
      intro p hp x hx
      by_cases hmk : m.picking_id = k
      · simp [groupRuns, hgr, hmk] at hp
        rcases hp with hp | hp
        · subst hp
          simp at hx
          rcases hx with hx | hx
          · simp [hx, hmk]
          · exact ih ⟨k, g⟩ (by simp) x (by simpa using hx)
        · exact ih p (by simp [hp]) x hx
      · simp [groupRuns, hgr, hmk] at hp
        rcases hp with hp | hp
        · subst hp
          simp at hx
          simp [hx]
        · exact ih p (by simp [hp]) x hx

theorem groupRuns_key_mem (l : List BMove) :
    ∀ p ∈ groupRuns l, ∃ x ∈ l, x.picking_id = p.1 := by
  induction l with
  | nil => simp [groupRuns]
  | cons m ms ih =>
    cases hgr : groupRuns ms with
    | nil =>
      intro p hp
      simp [groupRuns, hgr] at hp
      subst hp
      exact ⟨m, by simp, rfl⟩
    | cons q rest =>
      rw [hgr] at ih
      rcases q with ⟨k, g⟩
      intro p hp
      by_cases hmk : m.picking_id = k
      · simp [groupRuns, hgr, hmk] at hp
        rcases hp with hp | hp
        · subst hp
          exact ⟨m, by simp, by simp [hmk]⟩
        · obtain ⟨x, hx, hxk⟩ := ih p (by simp [hp])
          exact ⟨x, by simp [hx], hxk⟩
      · simp [groupRuns, hgr, hmk] at hp
        rcases hp with hp | hp | hp
        · subst hp
          exact ⟨m, by simp, rfl⟩
        · obtain ⟨x, hx, hxk⟩ := ih p (by simp [hp])
          exact ⟨x, by simp [hx], hxk⟩
        · obtain ⟨x, hx, hxk⟩ := ih p (by simp [hp])
          exact ⟨x, by simp [hx], hxk⟩

theorem groupRuns_keys_sorted (l : List BMove)
    (hs : l.Pairwise (fun a b => a.picking_id ≤ b.picking_id)) :
    ((groupRuns l).map Prod.fst).Pairwise (· < ·) := by
  induction l with
  | nil => simp [groupRuns]
  | cons m ms ih =>
    rw [List.pairwise_cons] at hs
    obtain ⟨hle, hms⟩ := hs
    cases hgr : groupRuns ms with
    | nil => simp [groupRuns, hgr]
    | cons q rest =>
      rcases q with ⟨k, g⟩
      have ih2 := ih hms
      rw [hgr] at ih2
      by_cases hmk : m.picking_id = k
      · have hgoal : groupRuns (m :: ms) = (k, m :: g) :: rest := by
          simp [groupRuns, hgr, hmk]
        rw [hgoal]
        simpa using ih2
      · obtain ⟨x, hx, hxk⟩ :=
          groupRuns_key_mem ms ⟨k, g⟩ (by rw [hgr]; simp)
        have hmk_lt : m.picking_id < k :=
          lt_of_le_of_ne (le_of_le_of_eq (hle x hx) hxk) hmk
        have hgoal : groupRuns (m :: ms)
            = (m.picking_id, [m]) :: (k, g) :: rest := by
          simp [groupRuns, hgr, hmk]
        rw [hgoal, List.map_cons, List.pairwise_cons]
        refine ⟨?_, ih2⟩
        intro b hb
        rw [List.map_cons, List.mem_cons] at hb
        rcases hb with hb | hb
        · exact hb ▸ hmk_lt
        · exact lt_trans hmk_lt ((List.pairwise_cons.mp ih2).1 b hb)

theorem flatten_filter_groups (G : List (Nat × List BMove))
    (p : Nat × List BMove) (hp : p ∈ G)
    (hnd : (G.map Prod.fst).Pairwise (fun a b => a ≠ b))
    (hkey : ∀ q ∈ G, ∀ x ∈ q.2, x.picking_id = q.1) :
    ((G.map Prod.snd).map
        (List.filter (fun x => x.picking_id == p.1))).flatten = p.2 := by
  induction G with
  | nil => simp at hp
  | cons q G ih =>
    rw [List.map_cons, List.map_cons, List.flatten_cons]
    rcases List.mem_cons.mp hp with hpq | hpG
    · subst hpq
      have h1 : p.2.filter (fun x => x.picking_id == p.1) = p.2 :=
        List.filter_eq_self.mpr
          (fun x hx => by simp [hkey p (by simp) x hx])
      have h2 : ((G.map Prod.snd).map
          (List.filter (fun x => x.picking_id == p.1))).flatten = [] := by
        rw [List.flatten_eq_nil_iff]
        intro l2 hl2
        rw [List.map_map, List.mem_map] at hl2
        obtain ⟨r, hr, rfl⟩ := hl2
        apply List.filter_eq_nil_iff.mpr
        intro x hx
        have hxr := hkey r (by simp [hr]) x hx
        have hne : p.1 ≠ r.1 :=
          (List.pairwise_cons.mp hnd).1 r.1
            (List.mem_map_of_mem Prod.fst hr)
        simp [hxr]
        exact fun h => hne h.symm
      rw [h1, h2]
      simp
    · have hq : q.2.filter (fun x => x.picking_id == p.1) = [] := by
        apply List.filter_eq_nil_iff.mpr
        intro x hx
        have hxq := hkey q (by simp) x hx
        have hne : q.1 ≠ p.1 :=
          (List.pairwise_cons.mp hnd).1 p.1
            (List.mem_map_of_mem Prod.fst hpG)
        simp [hxq]
        exact hne
      rw [hq, List.nil_append]
      exact ih hpG (List.pairwise_cons.mp hnd).2
        (fun r hr => hkey r (by simp [hr]))

theorem groupRuns_filter_eq (l : List BMove)
    (hs : l.Pairwise (fun a b => a.picking_id ≤ b.picking_id)) :
    ∀ p ∈ groupRuns l, l.filter (fun x => x.picking_id == p.1) = p.2 := by
  intro p hp
  have hnd : ((groupRuns l).map Prod.fst).Pairwise (fun a b => a ≠ b) :=
    (groupRuns_keys_sorted l hs).imp (fun h => Nat.ne_of_lt h)
  conv_lhs => rw [← groupRuns_flatten l]
  rw [List.filter_flatten]
  exact flatten_filter_groups (groupRuns l) p hp hnd (groupRuns_key l)

theorem movesSorted_pairwise (ms : List BMove) :
    (movesSorted ms).Pairwise
      (fun a b => a.picking_id ≤ b.picking_id) := by
  have h : (ms.mergeSort pickLe).Pairwise (fun a b => pickLe a b = true) :=
    @List.sorted_mergeSort BMove pickLe
      (fun a b c h1 h2 => by
        simp [pickLe] at h1 h2 ⊢
        omega)
      (fun a b => by
        simp [pickLe]
        omega)
      ms
  exact h.imp (fun hab => by simpa [pickLe] using hab)

theorem movesSorted_perm (ms : List BMove) :
    (movesSorted ms).Perm ms :=
  List.mergeSort_perm ms pickLe

/-- C5: grouping an assignment batch by sorting on the assigned
picking id and grouping consecutive equal keys yields exactly one
group per distinct picking (keys are distinct and are exactly the
pickings occurring in the batch), the group memberships partition the
batch and match the partition of the batch by assigned picking, and
the outcome is independent of the batch's input ordering (any
permutation of the batch yields, for each group, a group with the
same picking and a permuted membership). -/
theorem assign_picking_post_process_partition (ms : List BMove) :
    (((moves_by_picking ms).map Prod.fst).Nodup) ∧
    (∀ p ∈ moves_by_picking ms, p.1 ∈ ms.map (fun x => x.picking_id)) ∧
    (∀ k ∈ ms.map (fun x => x.picking_id),
      ∃ p ∈ moves_by_picking ms, p.1 = k) ∧
    (((moves_by_picking ms).map Prod.snd).flatten.Perm ms) ∧
    (∀ p ∈ moves_by_picking ms,
      p.2.Perm (ms.filter (fun x => x.picking_id == p.1))) ∧
    (∀ ms2, ms.Perm ms2 → ∀ p ∈ moves_by_picking ms,
      ∃ q ∈ moves_by_picking ms2, q.1 = p.1 ∧ q.2.Perm p.2) := by
  have key2doc : ∀ (l : List BMove), ∀ p ∈ moves_by_picking l,
      p.1 ∈ l.map (fun x => x.picking_id) := by
    intro l p hp
    obtain ⟨x, hx, hxk⟩ := groupRuns_key_mem (movesSorted l) p hp
    exact hxk ▸ List.mem_map_of_mem _ ((movesSorted_perm l).mem_iff.mp hx)
  have doc2key : ∀ (l : List BMove), ∀ k ∈ l.map (fun x => x.picking_id),
      ∃ p ∈ moves_by_picking l, p.1 = k := by
    intro l k hk
    rw [List.mem_map] at hk
    obtain ⟨x, hx, hxk⟩ := hk
    have hxs : x ∈ movesSorted l := (movesSorted_perm l).mem_iff.mpr hx
    rw [← groupRuns_flatten (movesSorted l), List.mem_flatten] at hxs
    obtain ⟨l2, hl2, hxl2⟩ := hxs
    rw [List.mem_map] at hl2
    obtain ⟨p, hp, rfl⟩ := hl2
    refine ⟨p, hp, ?_⟩
    rw [← hxk]
    exact (groupRuns_key (movesSorted l) p hp x hxl2).symm
  have memb : ∀ (l : List BMove), ∀ p ∈ moves_by_picking l,
      p.2.Perm (l.filter (fun x => x.picking_id == p.1)) := by
    intro l p hp
    have he := groupRuns_filter_eq (movesSorted l)
      (movesSorted_pairwise l) p hp
    rw [← he]
    exact (movesSorted_perm l).filter _
  refine ⟨?_, key2doc ms, doc2key ms, ?_, memb ms, ?_⟩
  · exact (groupRuns_keys_sorted (movesSorted ms)
      (movesSorted_pairwise ms)).imp (fun h => Nat.ne_of_lt h)
  · simp only [moves_by_picking]
    rw [groupRuns_flatten (movesSorted ms)]
    exact movesSorted_perm ms
  · intro ms2 h12 p hp
    have hk2 : p.1 ∈ ms2.map (fun x => x.picking_id) :=
      (h12.map (fun x => x.picking_id)).mem_iff.mp (key2doc ms p hp)
    obtain ⟨q, hq, hqk⟩ := doc2key ms2 p.1 hk2
    refine ⟨q, hq, hqk, ?_⟩
    have h1 := memb ms2 q hq
    have h2 := memb ms p hp
    rw [hqk] at h1
    exact h1.trans ((h12.symm.filter _).trans h2.symm)

unseal List.merge List.mergeSort in
/-- Witness for C5: in a concrete three-move batch over two pickings,
the group of picking 20 is a permutation of the batch's moves
assigned to picking 20. -/
theorem assign_picking_post_process_partition_witness :
    (([⟨1, 20⟩, ⟨3, 20⟩] : List BMove)).Perm
        (([⟨1, 20⟩, ⟨2, 10⟩, ⟨3, 20⟩] : List BMove).filter
          (fun x => x.picking_id == 20)) :=
  (assign_picking_post_process_partition
      [⟨1, 20⟩, ⟨2, 10⟩, ⟨3, 20⟩]).2.2.2.2.1
    (20, [⟨1, 20⟩, ⟨3, 20⟩]) (by decide)
